import Mathlib

/-!
Verification of the structured-data pretty-printer (`src/print.rs`).

The printer takes a parsed tree of dynamically typed values (the serde_json
`Value` union) and renders it as colorized text in one of three target formats:
indented JSON, YAML, or TOML.  We embed the value model and the three
renderers shallowly: writes into the color sink become a list of `Chunk`s,
a chunk being a semantic color role together with the text written under
that role.  Concatenating the chunk texts gives the plain (non-terminal)
output of the renderer; the roles record which substrings were tagged
`KEY`/`STR`/`HEADER`.  Fallible rendering (TOML) returns `Except`.
-/

namespace Jfn

/-- Semantic color roles of the sink (`KEY`, `STR`, `HEADER` in the source;
`plain` for untagged writes). The `ERR` role is only used by the top-level
error reporter, which is outside the renderer core. -/
inductive Role where
  | plain
  | key
  | strLit
  | header
deriving DecidableEq

/-- One write into the sink: the role it was tagged with and the text. -/
abbrev Chunk := Role × String

/-- The plain text obtained by stripping the color tags: concatenation of
all chunk texts, in order. -/
def render (cs : List Chunk) : String :=
  String.join (cs.map (fun c => c.2))

/-- The input value model: serde_json's `Value`.  Numbers are kept in the
textual form in which they are displayed (the renderers print them
verbatim via `Display`). -/
inductive Value where
  | null
  | bool (b : Bool)
  | num (n : String)
  | str (s : String)
  | arr (es : List Value)
  | obj (ms : List (String × Value))

/-- `Value::is_null` -/
def is_null : Value → Bool
  | .null => true
  | _ => false

/-- `Value::is_object` -/
def is_object : Value → Bool
  | .obj _ => true
  | _ => false

/-- `const TAB_WIDTH: usize = 2` -/
def TAB_WIDTH : Nat := 2

/-- `" ".repeat(n)` -/
def spaces (n : Nat) : String :=
  String.mk (List.replicate n ' ')

/-- `char::is_whitespace`: the Unicode `White_Space` property. -/
def rust_is_whitespace (c : Char) : Bool :=
  c.toNat = 0x09 || c.toNat = 0x0a || c.toNat = 0x0b || c.toNat = 0x0c ||
  c.toNat = 0x0d || c.toNat = 0x20 || c.toNat = 0x85 || c.toNat = 0xa0 ||
  c.toNat = 0x1680 || (0x2000 ≤ c.toNat && c.toNat ≤ 0x200a) ||
  c.toNat = 0x2028 || c.toNat = 0x2029 || c.toNat = 0x202f ||
  c.toNat = 0x205f || c.toNat = 0x3000

/-- `str::starts_with(pred)`: the first character satisfies `pred`
(false on the empty string). -/
def starts_with_pred (p : Char → Bool) (s : String) : Bool :=
  match s.data with
  | [] => false
  | c :: _ => p c

/-- `str::ends_with(pred)`: the last character satisfies `pred`
(false on the empty string). -/
def ends_with_pred (p : Char → Bool) (s : String) : Bool :=
  match s.data.getLast? with
  | none => false
  | some c => p c

/-- `str::contains(sub)` for a literal substring `sub`. -/
def has_substr (sub : String) (s : String) : Bool :=
  go sub.data s.data
where
  go (sub : List Char) : List Char → Bool
    | [] => sub.isEmpty
    | c :: rest => List.isPrefixOf sub (c :: rest) || go sub rest

/-- Lowercase hexadecimal digit, as in serde_json's escape table. -/
def hex_digit (n : Nat) : Char :=
  if n < 10 then Char.ofNat (48 + n) else Char.ofNat (87 + n)

/-- serde_json's escaping of a single character inside a double-quoted
JSON string: `"` and `\` are backslash-escaped, control characters get
their short escapes or `\u00XX`, everything else is passed through. -/
def escape_char (c : Char) : String :=
  if c = '\x22' then "\\\""
  else if c = '\\' then "\\\\"
  else if c = '\x08' then "\\b"
  else if c = '\x09' then "\\t"
  else if c = '\x0a' then "\\n"
  else if c = '\x0c' then "\\f"
  else if c = '\x0d' then "\\r"
  else if c.toNat < 0x20 then "\\u00" ++ String.mk [hex_digit (c.toNat / 16), hex_digit (c.toNat % 16)]
  else String.singleton c

/-- `fn quote(s) { Value::String(s.to_string()).to_string() }`: the JSON
double-quoted representation of a string, as produced by serde_json. -/
def quote (s : String) : String :=
  "\"" ++ String.join (s.data.map escape_char) ++ "\""

/-! ## JSON renderer (`write_json`) -/

mutual

/-- `fn write_json(w, depth, value)`: canonical indented JSON.  Arrays and
objects put every element on its own line; keys are written quoted in the
`KEY` role; string scalars are written (quoted, via `Display`) in the
`STR` role; other scalars verbatim. -/
def write_json (depth : Nat) : Value → List Chunk
  | .arr es => (Role.plain, "[") :: (write_json_arr depth es ++ [(Role.plain, "]")])
  | .obj ms => (Role.plain, "\x7b") :: (write_json_obj depth ms ++ [(Role.plain, "\x7d")])
  | .str s => [(Role.strLit, quote s)]
  | .null => [(Role.plain, "null")]
  | .bool b => [(Role.plain, cond b "true" "false")]
  | .num n => [(Role.plain, n)]

/-- The element loop of `write_json`'s `Array` arm: before each element a
newline plus `(depth+1)*TAB_WIDTH` spaces, after each element `,` — except
after the last, which gets a newline plus `depth*TAB_WIDTH` spaces. -/
def write_json_arr (depth : Nat) : List Value → List Chunk
  | [] => []
  | [e] =>
      (Role.plain, "\n" ++ spaces ((depth + 1) * TAB_WIDTH)) ::
        (write_json (depth + 1) e ++ [(Role.plain, "\n" ++ spaces (depth * TAB_WIDTH))])
  | e :: rest =>
      (Role.plain, "\n" ++ spaces ((depth + 1) * TAB_WIDTH)) ::
        (write_json (depth + 1) e ++ ((Role.plain, ",") :: write_json_arr depth rest))

/-- The member loop of `write_json`'s `Object` arm: like the array loop but
each member is preceded by its quoted key (role `KEY`) and `: `. -/
def write_json_obj (depth : Nat) : List (String × Value) → List Chunk
  | [] => []
  | [(k, v)] =>
      (Role.plain, "\n" ++ spaces ((depth + 1) * TAB_WIDTH)) ::
        (Role.key, quote k) :: (Role.plain, ": ") ::
        (write_json (depth + 1) v ++ [(Role.plain, "\n" ++ spaces (depth * TAB_WIDTH))])
  | (k, v) :: rest =>
      (Role.plain, "\n" ++ spaces ((depth + 1) * TAB_WIDTH)) ::
        (Role.key, quote k) :: (Role.plain, ": ") ::
        (write_json (depth + 1) v ++ ((Role.plain, ",") :: write_json_obj depth rest))

end

/-! ## YAML string classification (`yaml_flow_string`, `yaml_string`) -/

/-- The character blacklist of `yaml_flow_string`'s start-of-string check:
`- ? : , [ ] { } # & * ! | > ' " % @ \x60 + .` (source string literal). -/
def yaml_flow_special : List Char :=
  ['-', '?', ':', ',', '[', ']', '\x7b', '\x7d', '#', '&', '*', '!', '|',
   '>', '\x27', '\x22', '%', '@', '\x60', '+', '.']

/-- The regex `^[\x20-\x7e]+$` of `yaml_flow_string`: nonempty and all
characters printable ASCII. -/
def re_printable (s : String) : Bool :=
  !s.data.isEmpty && s.data.all (fun c => 0x20 ≤ c.toNat && c.toNat ≤ 0x7e)

/-- `fn yaml_flow_string(s)`: emit `s` bare when it matches the printable
regex, does not start with whitespace / an ASCII digit / a special
character, contains neither `": "` nor `" #"`, and does not end in
whitespace; otherwise emit it JSON-quoted. -/
def yaml_flow_string (s : String) : String :=
  if re_printable s
      && !starts_with_pred
            (fun c => rust_is_whitespace c || c.isDigit || yaml_flow_special.contains c) s
      && !has_substr ": " s
      && !has_substr " #" s
      && !ends_with_pred rust_is_whitespace s
  then s
  else quote s

/-- `str::split_inclusive('\n')` on the character list: split after every
newline, keeping the newline with the piece before it. -/
def split_inclusive_nl : List Char → List (List Char)
  | [] => []
  | c :: rest =>
      if c = '\x0a' then [c] :: split_inclusive_nl rest
      else
        match split_inclusive_nl rest with
        | [] => [[c]]
        | l :: ls => (c :: l) :: ls

/-- The per-line trim of `str::lines()`: strip one trailing `'\n'`, and a
`'\r'` directly before it. -/
def strip_line_ending (l : List Char) : List Char :=
  match l.getLast? with
  | some c =>
      if c = '\x0a' then
        let l' := l.dropLast
        match l'.getLast? with
        | some d => if d = '\x0d' then l'.dropLast else l'
        | none => l'
      else l
  | none => l

/-- `str::lines()`: pieces split inclusively at `'\n'`, each with its line
ending stripped. -/
def rust_lines (s : String) : List String :=
  (split_inclusive_nl s.data).map (fun l => String.mk (strip_line_ending l))

/-- `fn yaml_block_string(depth, s)`: a `|` header, then `TAB_WIDTH` as an
explicit indent indicator when the string starts with whitespace, then
each line of `s` preceded by a newline and `depth*TAB_WIDTH` spaces. -/
def yaml_block_string (depth : Nat) (s : String) : String :=
  let res := "|"
  let res := if starts_with_pred rust_is_whitespace s then res ++ toString TAB_WIDTH else res
  (rust_lines s).foldl (fun r line => r ++ ("\n" ++ spaces (depth * TAB_WIDTH) ++ line)) res

/-- The regex `^[\x20-\x7e\n]+$` of `yaml_string`: nonempty and all
characters printable ASCII or newline. -/
def re_printable_nl (s : String) : Bool :=
  !s.data.isEmpty && s.data.all (fun c => (0x20 ≤ c.toNat && c.toNat ≤ 0x7e) || c.toNat = 0x0a)

/-- `fn yaml_string(depth, s)`: block literal when the string contains a
newline and matches the printable-or-newline regex, flow scalar
otherwise. -/
def yaml_string (depth : Nat) (s : String) : String :=
  if s.data.contains '\x0a' && re_printable_nl s then yaml_block_string depth s
  else yaml_flow_string s

/-! Conditions (a)–(d) of the spec's flow-scalar rule, written from the
spec's words, for comparison with the source's `yaml_flow_string`. -/

/-- Spec condition (a): the string consists only of printable ASCII
(0x20–0x7E). -/
def spec_printable (s : String) : Bool :=
  s.data.all (fun c => 0x20 ≤ c.toNat && c.toNat ≤ 0x7e)

/-- Spec condition (b): the string starts with whitespace, an ASCII digit,
or one of the special characters. -/
def spec_bad_start (s : String) : Bool :=
  match s.data.head? with
  | none => false
  | some c => rust_is_whitespace c || c.isDigit || yaml_flow_special.contains c

/-- Spec condition (c): the string contains the substring `": "` or the
substring `" #"`. -/
def spec_bad_substr (s : String) : Bool :=
  has_substr ": " s || has_substr " #" s

/-- Spec condition (d): the string ends in whitespace. -/
def spec_ends_ws (s : String) : Bool :=
  match s.data.getLast? with
  | none => false
  | some c => rust_is_whitespace c

/-- All four spec conditions for emitting a string bare. -/
def spec_bare_ok (s : String) : Bool :=
  spec_printable s && !spec_bad_start s && !spec_bad_substr s && !spec_ends_ws s

/-- The lines of a block literal as the spec describes them: each line of
the string on its own line, indented by `depth*TAB_WIDTH` spaces. -/
def spec_block_lines (depth : Nat) : List String → String
  | [] => ""
  | l :: ls => "\n" ++ spaces (depth * TAB_WIDTH) ++ l ++ spec_block_lines depth ls

/-! ## YAML renderer (`write_yaml`) -/

mutual

/-- `fn write_yaml(w, depth, obj_value, value)`: block-style sequences and
mappings, flow form for empty containers, scalars through `yaml_string`.
`obj_value` records whether the value is the right-hand side of a
mapping key (it then gets a leading space, or a leading newline+indent
when it is a non-empty container element list). -/
def write_yaml (depth : Nat) (obj_value : Bool) : Value → List Chunk
  | .arr [] =>
      (if obj_value then [(Role.plain, " ")] else []) ++ [(Role.plain, "[]")]
  | .arr (e :: rest) => write_yaml_arr depth obj_value (e :: rest)
  | .obj [] =>
      (if obj_value then [(Role.plain, " ")] else []) ++ [(Role.plain, "\x7b\x7d")]
  | .obj (m :: rest) => write_yaml_obj depth obj_value (m :: rest)
  | .str s =>
      (if obj_value then [(Role.plain, " ")] else []) ++ [(Role.strLit, yaml_string depth s)]
  | .null =>
      (if obj_value then [(Role.plain, " ")] else []) ++ [(Role.plain, "null")]
  | .bool b =>
      (if obj_value then [(Role.plain, " ")] else []) ++ [(Role.plain, cond b "true" "false")]
  | .num n =>
      (if obj_value then [(Role.plain, " ")] else []) ++ [(Role.plain, n)]

/-- The element loop of `write_yaml`'s non-empty `Array` arm: each element
preceded by `- ` and rendered at `depth+1`; a newline plus `depth*TAB_WIDTH`
spaces before every element except a first one that is not a mapping
value (`sep` starts as `obj_value` and is `true` from then on). -/
def write_yaml_arr (depth : Nat) (sep : Bool) : List Value → List Chunk
  | [] => []
  | e :: rest =>
      (if sep then [(Role.plain, "\n" ++ spaces (depth * TAB_WIDTH))] else []) ++
        ((Role.plain, "- ") :: (write_yaml (depth + 1) false e ++ write_yaml_arr depth true rest))

/-- The member loop of `write_yaml`'s non-empty `Object` arm: each key
through the flow-scalar rule in role `KEY`, then `:`, then the value with
`obj_value = true` at `depth+1`; newline+indent before every member except
a first one that is not itself a mapping value. -/
def write_yaml_obj (depth : Nat) (sep : Bool) : List (String × Value) → List Chunk
  | [] => []
  | (k, v) :: rest =>
      (if sep then [(Role.plain, "\n" ++ spaces (depth * TAB_WIDTH))] else []) ++
        ((Role.key, yaml_flow_string k) :: (Role.plain, ":") ::
          (write_yaml (depth + 1) true v ++ write_yaml_obj depth true rest))

end

/-! ## TOML renderer (`write_toml`, `write_toml_inline`) -/

/-- The failures of the TOML renderer other than sink I/O (which the
shallow embedding has no counterpart of): the named `bail!` for a null
value, and the two `unreachable!` assertions. -/
inductive TomlErr where
  | nullNotRepresentable
  | unreachableArr
  | unreachableNested
deriving DecidableEq

/-- Result of a TOML render call: the chunks written, or the failure that
aborted it. -/
abbrev TomlOut := Except TomlErr (List Chunk)

/-- Sequencing of two fallible writes: concatenate the chunks, an error
aborts (the first error wins, as `?` does in the source). -/
def eseq (a b : TomlOut) : TomlOut :=
  match a with
  | .error e => .error e
  | .ok x =>
      match b with
      | .error e => .error e
      | .ok y => .ok (x ++ y)

/-- The regex `^[A-Za-z0-9_\-]+$` of `toml_key`. -/
def re_bare_key (s : String) : Bool :=
  !s.data.isEmpty && s.data.all (fun c => c.isAlpha || c.isDigit || c = '_' || c = '-')

/-- `fn toml_key(s)`: bare if it matches `^[A-Za-z0-9_\-]+$`, JSON-quoted
otherwise. -/
def toml_key (s : String) : String :=
  if re_bare_key s then s else quote s

/-- The null filter applied to mapping members:
`obj.iter().filter(|(_, v)| !v.is_null())`. -/
def filter_nulls (ms : List (String × Value)) : List (String × Value) :=
  ms.filter (fun kv => !is_null kv.2)

/-- The null filter applied to array elements:
`arr.iter().filter(|v| !v.is_null())`. -/
def filter_nulls_arr (es : List Value) : List Value :=
  es.filter (fun e => !is_null e)

/-- `fn is_object_array(value)`: an array all of whose elements are
objects (vacuously true for the empty array). -/
def is_object_array : Value → Bool
  | .arr es => es.all is_object
  | _ => false

/-- `fn should_nest(value)`: an object, or an array of objects. -/
def should_nest (v : Value) : Bool :=
  is_object v || is_object_array v

/-- The non-container arms of `write_toml` (`String`, `Null`, and the
`Display` fallback for booleans and numbers).  `write_toml_inline`'s
catch-all arm delegates to `write_toml(w, "", value)`, which for a
non-container value reduces to exactly these arms; the container arms
here are never reached (inline rendering matches arrays and objects
first). -/
def toml_scalar : Value → TomlOut
  | .str s => .ok [(Role.strLit, quote s)]
  | .null => .error .nullNotRepresentable
  | .bool b => .ok [(Role.plain, cond b "true" "false")]
  | .num n => .ok [(Role.plain, n)]
  | .arr _ => .ok []
  | .obj _ => .ok []

mutual

/-- `fn write_toml(w, context, value)`: the non-inline TOML renderer.
An array renders inline (the source delegates to `write_toml_inline`,
whose `Array` arm is written out here so that the recursion stays
structural); an object's members are split, after dropping null-valued
members, into flat members (emitted first, as `key = value` lines) and
nested members (emitted second, as `[section]` / `[[section]]` tables) —
the source materializes the two filtered vectors and loops over each,
which is embedded here as two passes over the member list that skip the
members belonging to the other pass; a string renders quoted in role
`STR`; null is the `bail!("can't convert null to TOML")`; booleans and
numbers render verbatim. -/
def write_toml (ctx : String) : Value → TomlOut
  | .arr es =>
      (write_toml_inline_arr true es).map
        (fun cs => (Role.plain, "[") :: (cs ++ [(Role.plain, "]")]))
  | .obj ms =>
      eseq (write_toml_flat ctx true ms)
        (write_toml_nested ctx (ms.any (fun kv => !is_null kv.2 && !should_nest kv.2)) ms)
  | .str s => .ok [(Role.strLit, quote s)]
  | .null => .error .nullNotRepresentable
  | .bool b => .ok [(Role.plain, cond b "true" "false")]
  | .num n => .ok [(Role.plain, n)]

/-- The flat-member pass of `write_toml`'s `Object` arm: null members and
nested members are skipped (the source pre-filters them out of its `flat`
vector), every remaining member renders as `key = value` with the key in
role `KEY`, and members are separated by single newlines (the source
writes the newline after every member but the last; here it is written
before every member but the first — the same write sequence). -/
def write_toml_flat (ctx : String) (first : Bool) : List (String × Value) → TomlOut
  | [] => .ok []
  | (k, v) :: rest =>
      if is_null v || should_nest v then write_toml_flat ctx first rest
      else
        eseq
          ((write_toml ctx v).map (fun cs =>
            (if first then [] else [(Role.plain, "\n")]) ++
              ((Role.key, toml_key k) :: (Role.plain, " = ") :: cs)))
          (write_toml_flat ctx false rest)

/-- The nested-member pass of `write_toml`'s `Object` arm: null members
and non-nested members are skipped (the source pre-filters them out of
its `nested` vector); a blank-line separator precedes every emitted
member except a first one with no flat members before it (`sep` starts
out as "some flat member exists"); an object member gets a
`[context.key]` header in role `HEADER` unless all its members nest,
then recurses with the extended context; an array member becomes
`[[context.key]]` array-of-tables entries; anything else is the source's
second `unreachable!`. -/
def write_toml_nested (ctx : String) (sep : Bool) : List (String × Value) → TomlOut
  | [] => .ok []
  | (k, v) :: rest =>
      if is_null v || !should_nest v then write_toml_nested ctx sep rest
      else
        let kk := ctx ++ toml_key k
        let head : TomlOut :=
          match v with
          | .obj o =>
              let hdr : List Chunk :=
                if o.any (fun kv => !should_nest kv.2)
                then [(Role.header, "[" ++ kk ++ "]\n")] else []
              (write_toml (kk ++ ".") (.obj o)).map (fun cs => hdr ++ cs)
          | .arr es => write_toml_tables kk false es
          | _ => .error .unreachableNested
        eseq
          (head.map (fun cs => (if sep then [(Role.plain, "\n\n")] else []) ++ cs))
          (write_toml_nested ctx true rest)

/-- The array-of-tables loop of `write_toml`: each element preceded by a
blank line except the first, a `[[section]]` header in role `HEADER`,
a newline when the element table is non-empty, then the element rendered
as a table with the extended context; a non-object element is the
source's first `unreachable!`. -/
def write_toml_tables (kk : String) (sep : Bool) : List Value → TomlOut
  | [] => .ok []
  | e :: rest =>
      let head : TomlOut :=
        match e with
        | .obj o =>
            (write_toml (kk ++ ".") (.obj o)).map
              (fun cs =>
                (if sep then [(Role.plain, "\n\n")] else []) ++
                  ((Role.header, "[[" ++ kk ++ "]]") ::
                    ((if o.isEmpty then [] else [(Role.plain, "\n")]) ++ cs)))
        | _ => .error .unreachableArr
      eseq head (write_toml_tables kk true rest)

/-- `fn write_toml_inline(w, value)`: the inline-only renderer.  Arrays
and inline tables drop null-valued members and recurse inline (the
skipping happens in the loops; the trailing space the source writes
after the last inline-table member appears here after the loop, guarded
by "some non-null member exists" — the same write sequence); every other
value delegates to `write_toml` (see `toml_scalar`). -/
def write_toml_inline : Value → TomlOut
  | .arr es =>
      (write_toml_inline_arr true es).map
        (fun cs => (Role.plain, "[") :: (cs ++ [(Role.plain, "]")]))
  | .obj ms =>
      (write_toml_inline_obj true ms).map
        (fun cs => (Role.plain, "\x7b") ::
          (cs ++
            if ms.any (fun kv => !is_null kv.2)
            then [(Role.plain, " "), (Role.plain, "\x7d")]
            else [(Role.plain, "\x7d")]))
  | v => toml_scalar v

/-- The element loop of `write_toml_inline`'s `Array` arm: null elements
are skipped (the source pre-filters them), the rest are joined by `, `
(written by the source after every element but the last; here before
every element but the first — the same write sequence). -/
def write_toml_inline_arr (first : Bool) : List Value → TomlOut
  | [] => .ok []
  | e :: rest =>
      if is_null e then write_toml_inline_arr first rest
      else
        eseq
          ((write_toml_inline e).map
            (fun cs => (if first then [] else [(Role.plain, ", ")]) ++ cs))
          (write_toml_inline_arr false rest)

/-- The member loop of `write_toml_inline`'s `Object` arm: null members
are skipped (the source pre-filters them); each member renders as ` key`
in role `KEY`, then ` = `, then the value inline; members are joined by
`,` (written by the source after every member but the last; here before
every member but the first — the same write sequence). -/
def write_toml_inline_obj (first : Bool) : List (String × Value) → TomlOut
  | [] => .ok []
  | (k, v) :: rest =>
      if is_null v then write_toml_inline_obj first rest
      else
        eseq
          ((write_toml_inline v).map (fun cs =>
            (if first then [] else [(Role.plain, ",")]) ++
              ((Role.key, " " ++ toml_key k) :: (Role.plain, " = ") :: cs)))
          (write_toml_inline_obj false rest)

end

/-- Whether a TOML render result is one of the two `unreachable!`
failures. -/
def is_unreachable_err : TomlOut → Bool
  | .error .unreachableArr => true
  | .error .unreachableNested => true
  | _ => false

/-- Whether a TOML render result is free of `HEADER`-role chunks (an
error counts as free). -/
def no_header : TomlOut → Bool
  | .ok cs => cs.all (fun c => !(c.1 == Role.header))
  | .error _ => true

/-! ## Theorems: supporting lemmas and the claims -/

/-- C1 (counterexample): the claim states that `write_json` renders an
empty array multi-line — `[`, a newline, `]` — at depth 0.  In the code
the inner newline+indent pair is written inside the per-element loop, so
an empty array runs the loop zero times and renders as the compact `[]`,
not as `[` newline `]`. -/
theorem claim_C1_counterexample :
    render (write_json 0 (Value.arr [])) = "[]" ∧
    (("[]" : String) == "[\n]") = false :=
  ⟨rfl, rfl⟩

/-- C1 (amended): an empty array or empty mapping renders compact — `[]`
resp. `{}` — at every depth, because the newline + indent pairs of the
JSON renderer are emitted per element and an empty container has no
elements.  There is no separate empty-container special case in the code;
compactness falls out of the loop structure. -/
theorem claim_C1_amended (depth : Nat) :
    render (write_json depth (Value.arr [])) = "[]" ∧
    render (write_json depth (Value.obj [])) = "\x7b\x7d" :=
  ⟨rfl, rfl⟩

/-- C3 (counterexample): the claim says a string is emitted bare iff the
four conditions (a)–(d) hold.  The empty string satisfies all four
conditions vacuously — it consists only of printable ASCII, starts with
nothing, contains no bad substring, ends in nothing — yet the source's
regex `^[\x20-\x7e]+$` requires at least one character, so the empty
string is emitted JSON-quoted as `""`, not bare. -/
theorem claim_C3_counterexample :
    spec_printable "" = true ∧ spec_bad_start "" = false ∧
    spec_bad_substr "" = false ∧ spec_ends_ws "" = false ∧
    yaml_flow_string "" = "\"\"" ∧ (yaml_flow_string "" == "") = false := by
  decide

/-- C3 (amended): a string is emitted bare through `yaml_flow_string` iff
it is nonempty and conditions (a)–(d) hold: only printable ASCII, no bad
start character, neither `": "` nor `" #"` as a substring, and no trailing
whitespace; any other string is emitted JSON-quoted.  In particular
`"3abc"` is quoted and `"ok"` is bare. -/
theorem claim_C3_amended :
    (∀ s : String,
      yaml_flow_string s = if (!s.data.isEmpty && spec_bare_ok s) = true then s else quote s)
    ∧ yaml_flow_string "3abc" = "\"3abc\"" ∧ yaml_flow_string "ok" = "ok" := by
  refine ⟨fun s => ?_, by decide, by decide⟩
  have h : (re_printable s
      && !starts_with_pred
            (fun c => rust_is_whitespace c || c.isDigit || yaml_flow_special.contains c) s
      && !has_substr ": " s
      && !has_substr " #" s
      && !ends_with_pred rust_is_whitespace s)
      = (!s.data.isEmpty && spec_bare_ok s) := by
    unfold re_printable spec_bare_ok spec_printable spec_bad_start spec_bad_substr
    unfold spec_ends_ws starts_with_pred ends_with_pred
    obtain ⟨l⟩ := s
    cases l with
    | nil => rfl
    | cons c rest =>
        simp only [List.head?]
        simp [Bool.and_assoc, Bool.not_or]
  unfold yaml_flow_string
  rw [h]

theorem foldl_block (depth : Nat) :
    ∀ (ls : List String) (init : String),
      ls.foldl (fun r line => r ++ ("\n" ++ spaces (depth * TAB_WIDTH) ++ line)) init
        = init ++ spec_block_lines depth ls := by
  intro ls
  induction ls with
  | nil => intro init; simp [spec_block_lines, String.append_empty]
  | cons a t ih =>
      intro init
      simp only [List.foldl_cons, spec_block_lines, ih]
      exact String.append_assoc init ("\n" ++ spaces (depth * TAB_WIDTH) ++ a) (spec_block_lines depth t)

/-- C7 (counterexample): the claim says the indent-indicator digit follows
`|` exactly when the *first line* of the string starts with whitespace.
For `"\nabc"` the first line is the empty string (which does not start
with whitespace), yet the source checks whether the *string* starts with
whitespace — `'\n'` is whitespace — and emits `|2`. -/
theorem claim_C7_counterexample :
    yaml_string 0 "\nabc" = "|2\n\nabc" ∧
    rust_lines "\nabc" = ["", "abc"] ∧
    (yaml_string 0 "\nabc" == "|\n\nabc") = false := by
  decide

/-- C7 (amended): a string containing a newline and consisting entirely of
printable ASCII plus newline is emitted as a block literal, all others go
through the flow-scalar rule; the block literal is a `|` header, followed
immediately by the indent-indicator digit if the *string* starts with
whitespace (a leading `'\n'` counts, even though it makes the first line
empty), then each line of the string on its own line indented by
`depth*TAB_WIDTH` spaces. -/
theorem claim_C7_amended :
    (∀ depth : Nat, ∀ s : String,
      yaml_string depth s =
        if (s.data.contains '\x0a' && re_printable_nl s) = true
        then yaml_block_string depth s else yaml_flow_string s)
    ∧ (∀ depth : Nat, ∀ s : String,
      yaml_block_string depth s =
        "|" ++ (if starts_with_pred rust_is_whitespace s then toString TAB_WIDTH else "")
          ++ spec_block_lines depth (rust_lines s))
    ∧ yaml_string 1 "a\nb" = "|\n  a\n  b" := by
  refine ⟨fun depth s => rfl, fun depth s => ?_, by decide⟩
  unfold yaml_block_string
  rw [foldl_block]
  cases h : starts_with_pred rust_is_whitespace s with
  | false => simp [h, String.append_empty]
  | true => simp [h]

/-- C8: in the YAML renderer an empty sequence renders as the flow form
`[]` and an empty mapping as `{}`, each on one line, preceded by exactly
one space iff the container is the value of a mapping key; in particular
`{"key": []}` renders as `key: []` on a single line. -/
theorem claim_C8 (depth : Nat) (obj_value : Bool) :
    render (write_yaml depth obj_value (Value.arr [])) =
      (if obj_value then " []" else "[]") ∧
    render (write_yaml depth obj_value (Value.obj [])) =
      (if obj_value then " \x7b\x7d" else "\x7b\x7d") ∧
    render (write_yaml 0 false (Value.obj [("key", Value.arr [])])) = "key: []" := by
  cases obj_value <;> exact ⟨rfl, rfl, rfl⟩

/-- `eseq` succeeds exactly when both writes do. -/
theorem eseq_isOk (a b : TomlOut) : (eseq a b).isOk = (a.isOk && b.isOk) := by
  cases a <;> cases b <;> rfl

/-- Mapping over the chunks does not change success. -/
theorem map_isOk (f : List Chunk → List Chunk) (a : TomlOut) :
    (Except.map f a).isOk = a.isOk := by
  cases a <;> rfl

/-- A successful result is not an `unreachable!` failure. -/
theorem isOk_not_unreachable (a : TomlOut) (h : a.isOk = true) :
    is_unreachable_err a = false := by
  cases a with
  | ok _ => rfl
  | error e => simp [Except.isOk, Except.toBool] at h

/-- Totality of the TOML renderer, by strong induction on the size of the
argument: `write_toml` succeeds on every non-null value (null members are
skipped by the loops, nested members are objects or arrays of objects by
the `should_nest` guard, array-of-tables elements are objects), and each
loop succeeds under the invariant established by its caller. -/
theorem toml_total : ∀ n : Nat,
    (∀ v : Value, sizeOf v ≤ n → ∀ ctx : String,
      is_null v = false → (write_toml ctx v).isOk = true)
    ∧ (∀ v : Value, sizeOf v ≤ n →
      is_null v = false → (write_toml_inline v).isOk = true)
    ∧ (∀ l : List (String × Value), sizeOf l ≤ n → ∀ ctx : String, ∀ first : Bool,
      (write_toml_flat ctx first l).isOk = true)
    ∧ (∀ l : List (String × Value), sizeOf l ≤ n → ∀ ctx : String, ∀ sep : Bool,
      (write_toml_nested ctx sep l).isOk = true)
    ∧ (∀ es : List Value, sizeOf es ≤ n → ∀ kk : String, ∀ sep : Bool,
      es.all is_object = true → (write_toml_tables kk sep es).isOk = true)
    ∧ (∀ es : List Value, sizeOf es ≤ n → ∀ first : Bool,
      (write_toml_inline_arr first es).isOk = true)
    ∧ (∀ l : List (String × Value), sizeOf l ≤ n → ∀ first : Bool,
      (write_toml_inline_obj first l).isOk = true) := by
  intro n
  induction n using Nat.strong_induction_on with
  | _ n ih =>
    refine ⟨?_, ?_, ?_, ?_, ?_, ?_, ?_⟩
    · -- write_toml
      intro v hv ctx hnull
      cases v with
      | null => simp [is_null] at hnull
      | bool b => rfl
      | num m => rfl
      | str s => rfl
      | arr es =>
          have hsz : sizeOf (Value.arr es) = 1 + sizeOf es := Value.arr.sizeOf_spec es
          have hlt : sizeOf es < n := by omega
          simp only [write_toml, map_isOk]
          exact (ih (sizeOf es) hlt).2.2.2.2.2.1 es (le_refl _) true
      | obj ms =>
          have hsz : sizeOf (Value.obj ms) = 1 + sizeOf ms := Value.obj.sizeOf_spec ms
          have hlt : sizeOf ms < n := by omega
          simp only [write_toml, eseq_isOk, Bool.and_eq_true]
          exact ⟨(ih (sizeOf ms) hlt).2.2.1 ms (le_refl _) ctx true,
            (ih (sizeOf ms) hlt).2.2.2.1 ms (le_refl _) ctx _⟩
    · -- write_toml_inline
      intro v hv hnull
      cases v with
      | null => simp [is_null] at hnull
      | bool b => rfl
      | num m => rfl
      | str s => rfl
      | arr es =>
          have hsz : sizeOf (Value.arr es) = 1 + sizeOf es := Value.arr.sizeOf_spec es
          have hlt : sizeOf es < n := by omega
          simp only [write_toml_inline, map_isOk]
          exact (ih (sizeOf es) hlt).2.2.2.2.2.1 es (le_refl _) true
      | obj ms =>
          have hsz : sizeOf (Value.obj ms) = 1 + sizeOf ms := Value.obj.sizeOf_spec ms
          have hlt : sizeOf ms < n := by omega
          simp only [write_toml_inline, map_isOk]
          exact (ih (sizeOf ms) hlt).2.2.2.2.2.2 ms (le_refl _) true
    · -- write_toml_flat
      intro l hl ctx first
      cases l with
      | nil => rfl
      | cons head rest =>
          obtain ⟨k, v⟩ := head
          have hsz : sizeOf ((k, v) :: rest) = 1 + (1 + sizeOf k + sizeOf v) + sizeOf rest := by
            rw [List.cons.sizeOf_spec, Prod.mk.sizeOf_spec]
          cases hk : (is_null v || should_nest v) with
          | true =>
              have hlt : sizeOf rest < n := by omega
              simp only [write_toml_flat, if_pos hk]
              exact (ih (sizeOf rest) hlt).2.2.1 rest (le_refl _) ctx first
          | false =>
              have hne : ¬((is_null v || should_nest v) = true) := by simp [hk]
              have hnull : is_null v = false := by
                have h2 := hk
                simp only [Bool.or_eq_false_iff] at h2
                exact h2.1
              have hltv : sizeOf v < n := by omega
              have hltr : sizeOf rest < n := by omega
              simp only [write_toml_flat, if_neg hne, eseq_isOk, map_isOk, Bool.and_eq_true]
              exact ⟨(ih (sizeOf v) hltv).1 v (le_refl _) ctx hnull,
                (ih (sizeOf rest) hltr).2.2.1 rest (le_refl _) ctx false⟩
    · -- write_toml_nested
      intro l hl ctx sep
      cases l with
      | nil => rfl
      | cons head rest =>
          obtain ⟨k, v⟩ := head
          have hsz : sizeOf ((k, v) :: rest) = 1 + (1 + sizeOf k + sizeOf v) + sizeOf rest := by
            rw [List.cons.sizeOf_spec, Prod.mk.sizeOf_spec]
          have hltr : sizeOf rest < n := by omega
          cases hk : (is_null v || !should_nest v) with
          | true =>
              rw [write_toml_nested, if_pos hk]
              exact (ih (sizeOf rest) hltr).2.2.2.1 rest (le_refl _) ctx sep
          | false =>
              have hne : ¬((is_null v || !should_nest v) = true) := by simp [hk]
              have hnest : should_nest v = true := by
                cases hsn : should_nest v with
                | true => rfl
                | false =>
                    exfalso
                    simp only [Bool.or_eq_false_iff] at hk
                    have h2 := hk.2
                    rw [hsn] at h2
                    simp at h2
              have hltv : sizeOf v < n := by omega
              cases v with
              | null => simp [should_nest, is_object, is_object_array] at hnest
              | bool b => simp [should_nest, is_object, is_object_array] at hnest
              | num m => simp [should_nest, is_object, is_object_array] at hnest
              | str s => simp [should_nest, is_object, is_object_array] at hnest
              | obj o =>
                  rw [write_toml_nested, if_neg hne]
                  simp only [eseq_isOk, map_isOk, Bool.and_eq_true]
                  exact ⟨(ih (sizeOf (Value.obj o)) hltv).1 (Value.obj o) (le_refl _) _ rfl,
                    (ih (sizeOf rest) hltr).2.2.2.1 rest (le_refl _) ctx true⟩
              | arr es =>
                  have hall : es.all is_object = true := by
                    simp only [should_nest, is_object, is_object_array, Bool.false_or] at hnest
                    exact hnest
                  have hsza : sizeOf (Value.arr es) = 1 + sizeOf es := Value.arr.sizeOf_spec es
                  have hlte : sizeOf es < n := by omega
                  rw [write_toml_nested, if_neg hne]
                  simp only [eseq_isOk, map_isOk, Bool.and_eq_true]
                  exact ⟨(ih (sizeOf es) hlte).2.2.2.2.1 es (le_refl _) _ false hall,
                    (ih (sizeOf rest) hltr).2.2.2.1 rest (le_refl _) ctx true⟩
    · -- write_toml_tables
      intro es hes kk sep hall
      cases es with
      | nil => rfl
      | cons e rest =>
          have hsz : sizeOf (e :: rest) = 1 + sizeOf e + sizeOf rest := List.cons.sizeOf_spec e rest
          have hlte : sizeOf e < n := by omega
          have hltr : sizeOf rest < n := by omega
          simp only [List.all_cons, Bool.and_eq_true] at hall
          cases e with
          | obj o =>
              simp only [write_toml_tables, eseq_isOk, map_isOk, Bool.and_eq_true]
              exact ⟨(ih (sizeOf (Value.obj o)) hlte).1 (Value.obj o) (le_refl _) _ rfl,
                (ih (sizeOf rest) hltr).2.2.2.2.1 rest (le_refl _) kk true hall.2⟩
          | null => simp [is_object] at hall
          | bool b => simp [is_object] at hall
          | num m => simp [is_object] at hall
          | str s => simp [is_object] at hall
          | arr es2 => simp [is_object] at hall
    · -- write_toml_inline_arr
      intro es hes first
      cases es with
      | nil => rfl
      | cons e rest =>
          have hsz : sizeOf (e :: rest) = 1 + sizeOf e + sizeOf rest := List.cons.sizeOf_spec e rest
          have hlte : sizeOf e < n := by omega
          have hltr : sizeOf rest < n := by omega
          cases hk : is_null e with
          | true =>
              simp only [write_toml_inline_arr, if_pos hk]
              exact (ih (sizeOf rest) hltr).2.2.2.2.2.1 rest (le_refl _) first
          | false =>
              have hne : ¬(is_null e = true) := by simp [hk]
              simp only [write_toml_inline_arr, if_neg hne, eseq_isOk, map_isOk, Bool.and_eq_true]
              exact ⟨(ih (sizeOf e) hlte).2.1 e (le_refl _) hk,
                (ih (sizeOf rest) hltr).2.2.2.2.2.1 rest (le_refl _) false⟩
    · -- write_toml_inline_obj
      intro l hl first
      cases l with
      | nil => rfl
      | cons head rest =>
          obtain ⟨k, v⟩ := head
          have hsz : sizeOf ((k, v) :: rest) = 1 + (1 + sizeOf k + sizeOf v) + sizeOf rest := by
            rw [List.cons.sizeOf_spec, Prod.mk.sizeOf_spec]
          have hltv : sizeOf v < n := by omega
          have hltr : sizeOf rest < n := by omega
          cases hk : is_null v with
          | true =>
              simp only [write_toml_inline_obj, if_pos hk]
              exact (ih (sizeOf rest) hltr).2.2.2.2.2.2 rest (le_refl _) first
          | false =>
              have hne : ¬(is_null v = true) := by simp [hk]
              simp only [write_toml_inline_obj, if_neg hne, eseq_isOk, map_isOk, Bool.and_eq_true]
              exact ⟨(ih (sizeOf v) hltv).2.1 v (le_refl _) hk,
                (ih (sizeOf rest) hltr).2.2.2.2.2.2 rest (le_refl _) false⟩

/-- C5: the TOML renderer fails with the distinct named error
`nullNotRepresentable` (the `bail!`, not an I/O error) exactly when the
value at the render position is `Null`: `write_toml` succeeds iff its
argument is not null (null members inside arrays and mappings are
filtered out by the loops and never cause the error), and on null it
returns precisely that named error. -/
theorem claim_C5 (ctx : String) (v : Value) :
    (write_toml ctx v).isOk = !is_null v ∧
    write_toml ctx Value.null = .error TomlErr.nullNotRepresentable := by
  refine ⟨?_, rfl⟩
  cases v with
  | null => rfl
  | bool b => exact (toml_total (sizeOf (Value.bool b))).1 _ (le_refl _) ctx rfl
  | num m => exact (toml_total (sizeOf (Value.num m))).1 _ (le_refl _) ctx rfl
  | str s => exact (toml_total (sizeOf (Value.str s))).1 _ (le_refl _) ctx rfl
  | arr es => exact (toml_total (sizeOf (Value.arr es))).1 _ (le_refl _) ctx rfl
  | obj ms => exact (toml_total (sizeOf (Value.obj ms))).1 _ (le_refl _) ctx rfl

/-- C9: the two `unreachable!` branches of `write_toml` never fire: under
the `should_nest` classification every member of an array-of-objects
nested member is an object, so no call of the TOML renderer — inline
included — ever returns either `unreachable` error, on any input. -/
theorem claim_C9 (ctx : String) (v : Value) :
    is_unreachable_err (write_toml ctx v) = false ∧
    is_unreachable_err (write_toml_inline v) = false := by
  constructor
  · cases v with
    | null => rfl
    | bool b =>
        exact isOk_not_unreachable _ ((toml_total (sizeOf (Value.bool b))).1 _ (le_refl _) ctx rfl)
    | num m =>
        exact isOk_not_unreachable _ ((toml_total (sizeOf (Value.num m))).1 _ (le_refl _) ctx rfl)
    | str s =>
        exact isOk_not_unreachable _ ((toml_total (sizeOf (Value.str s))).1 _ (le_refl _) ctx rfl)
    | arr es =>
        exact isOk_not_unreachable _ ((toml_total (sizeOf (Value.arr es))).1 _ (le_refl _) ctx rfl)
    | obj ms =>
        exact isOk_not_unreachable _ ((toml_total (sizeOf (Value.obj ms))).1 _ (le_refl _) ctx rfl)
  · cases v with
    | null => rfl
    | bool b =>
        exact isOk_not_unreachable _ ((toml_total (sizeOf (Value.bool b))).2.1 _ (le_refl _) rfl)
    | num m =>
        exact isOk_not_unreachable _ ((toml_total (sizeOf (Value.num m))).2.1 _ (le_refl _) rfl)
    | str s =>
        exact isOk_not_unreachable _ ((toml_total (sizeOf (Value.str s))).2.1 _ (le_refl _) rfl)
    | arr es =>
        exact isOk_not_unreachable _ ((toml_total (sizeOf (Value.arr es))).2.1 _ (le_refl _) rfl)
    | obj ms =>
        exact isOk_not_unreachable _ ((toml_total (sizeOf (Value.obj ms))).2.1 _ (le_refl _) rfl)

/-- Prepending an empty write sequence changes nothing. -/
theorem eseq_nil_left (x : TomlOut) : eseq (.ok []) x = x := by
  cases x <;> simp [eseq]

/-- Appending an empty write sequence changes nothing. -/
theorem eseq_nil_right (x : TomlOut) : eseq x (.ok []) = x := by
  cases x <;> simp [eseq]

/-- Mapping a vacuous prepend over a result changes nothing. -/
theorem map_nil_prepend (x : TomlOut) : x.map (fun cs => [] ++ cs) = x := by
  cases x <;> simp [Except.map]

/-- C2 (counterexample): the claim says the `[section]` header for a
nested object member is emitted unless every member of that object —
after null-valued members are dropped — is itself nested.  The source
runs its `any !should_nest` test on the *unfiltered* member list, and a
null member is not nested, so in `{"outer": {"n": null, "inner": {"z":
1}}}` the only surviving member of `outer` is the nested `inner`, yet the
null member `n` forces the `[outer]` header, which the claim says must be
absent. -/
theorem claim_C2_counterexample :
    write_toml "" (Value.obj [("outer", Value.obj
        [("n", Value.null), ("inner", Value.obj [("z", Value.num "1")])])]) =
      .ok [(Role.header, "[outer]\n"), (Role.header, "[outer.inner]\n"),
        (Role.key, "z"), (Role.plain, " = "), (Role.plain, "1")]
    ∧ (filter_nulls [("n", Value.null), ("inner", Value.obj [("z", Value.num "1")])]).all
        (fun kv => should_nest kv.2) = true
    ∧ render [(Role.header, "[outer]\n"), (Role.header, "[outer.inner]\n"),
        (Role.key, "z"), (Role.plain, " = "), (Role.plain, "1")] =
      "[outer]\n[outer.inner]\nz = 1"
    ∧ (("[outer]\n[outer.inner]\nz = 1" : String) == "[outer.inner]\nz = 1") = false :=
  ⟨rfl, rfl, rfl, rfl⟩

/-- C2 (amended): in non-inline TOML rendering of a mapping with a
nested-object member, the `[context.key]` header is emitted unless every
member of that nested object is itself nested, where the members are
taken from the *raw* member list (before null-dropping) and a null member
counts as non-nested, therefore forcing the header; the claim's example
`{"outer": {"inner": {"z": 1}}}` still renders as the single header
`[outer.inner]` followed by `z = 1`. -/
theorem claim_C2_amended (ctx k : String) (ms : List (String × Value)) :
    (write_toml ctx (Value.obj [(k, Value.obj ms)]) =
      (write_toml ((ctx ++ toml_key k) ++ ".") (Value.obj ms)).map
        (fun cs =>
          (if ms.any (fun kv => !should_nest kv.2)
           then [(Role.header, "[" ++ (ctx ++ toml_key k) ++ "]\n")] else []) ++ cs))
    ∧ write_toml "" (Value.obj [("outer", Value.obj [("inner", Value.obj [("z", Value.num "1")])])]) =
        .ok [(Role.header, "[outer.inner]\n"), (Role.key, "z"), (Role.plain, " = "), (Role.plain, "1")]
    ∧ render [(Role.header, "[outer.inner]\n"), (Role.key, "z"), (Role.plain, " = "), (Role.plain, "1")] =
        "[outer.inner]\nz = 1" := by
  refine ⟨?_, rfl, rfl⟩
  have h1 : write_toml ctx (Value.obj [(k, Value.obj ms)]) =
      eseq (.ok [])
        (eseq
          (((write_toml ((ctx ++ toml_key k) ++ ".") (Value.obj ms)).map
            (fun cs =>
              (if ms.any (fun kv => !should_nest kv.2)
               then [(Role.header, "[" ++ (ctx ++ toml_key k) ++ "]\n")] else []) ++ cs)).map
            (fun cs => [] ++ cs))
          (.ok [])) := rfl
  rw [h1, eseq_nil_left, eseq_nil_right, map_nil_prepend]

/-- Pointwise-equal predicates give the same `any`. -/
theorem any_congr_fun {α : Type} (l : List α) (f g : α → Bool) (h : ∀ a, f a = g a) :
    l.any f = l.any g := by
  induction l with
  | nil => rfl
  | cons a t ih => simp [List.any_cons, h, ih]

/-- `any` over the null-filtered members is `any` over all members with
the non-null condition conjoined. -/
theorem any_drop_nulls (ms : List (String × Value)) (p : String × Value → Bool) :
    (filter_nulls ms).any p = ms.any (fun kv => !is_null kv.2 && p kv) := by
  induction ms with
  | nil => rfl
  | cons head rest ih =>
      obtain ⟨k, v⟩ := head
      cases hv : is_null v <;>
        simp [filter_nulls, List.filter_cons, List.any_cons, hv, ih]

/-- The flat pass ignores null members: running it on the null-filtered
list is the same as running it on the raw list. -/
theorem flat_drop_nulls (ctx : String) :
    ∀ (l : List (String × Value)) (first : Bool),
      write_toml_flat ctx first l = write_toml_flat ctx first (filter_nulls l) := by
  intro l
  induction l with
  | nil => intro first; rfl
  | cons head rest ih =>
      intro first
      obtain ⟨k, v⟩ := head
      cases hv : is_null v with
      | true =>
          have hfil : filter_nulls ((k, v) :: rest) = filter_nulls rest := by
            simp [filter_nulls, List.filter_cons, hv]
          rw [hfil, write_toml_flat, if_pos (show (is_null v || should_nest v) = true by simp [hv]), ih]
      | false =>
          have hfil : filter_nulls ((k, v) :: rest) = (k, v) :: filter_nulls rest := by
            simp [filter_nulls, List.filter_cons, hv]
          rw [hfil]
          cases hs : should_nest v with
          | true =>
              have hc : (is_null v || should_nest v) = true := by simp [hv, hs]
              rw [write_toml_flat, if_pos hc]
              conv_rhs => rw [write_toml_flat, if_pos hc]
              rw [ih]
          | false =>
              have hne : ¬((is_null v || should_nest v) = true) := by simp [hv, hs]
              rw [write_toml_flat, if_neg hne]
              conv_rhs => rw [write_toml_flat, if_neg hne]
              rw [ih]

/-- The nested pass ignores null members as well. -/
theorem nested_drop_nulls (ctx : String) :
    ∀ (l : List (String × Value)) (sep : Bool),
      write_toml_nested ctx sep l = write_toml_nested ctx sep (filter_nulls l) := by
  intro l
  induction l with
  | nil => intro sep; rfl
  | cons head rest ih =>
      intro sep
      obtain ⟨k, v⟩ := head
      cases hv : is_null v with
      | true =>
          have hfil : filter_nulls ((k, v) :: rest) = filter_nulls rest := by
            simp [filter_nulls, List.filter_cons, hv]
          rw [hfil, write_toml_nested, if_pos (show (is_null v || !should_nest v) = true by simp [hv]), ih]
      | false =>
          have hfil : filter_nulls ((k, v) :: rest) = (k, v) :: filter_nulls rest := by
            simp [filter_nulls, List.filter_cons, hv]
          rw [hfil]
          cases hs : should_nest v with
          | false =>
              have hc : (is_null v || !should_nest v) = true := by simp [hv, hs]
              rw [write_toml_nested, if_pos hc]
              conv_rhs => rw [write_toml_nested, if_pos hc]
              rw [ih]
          | true =>
              have hne : ¬((is_null v || !should_nest v) = true) := by simp [hv, hs]
              rw [write_toml_nested, if_neg hne]
              conv_rhs => rw [write_toml_nested, if_neg hne]
              rw [ih]

/-- The inline array loop ignores null elements. -/
theorem inline_arr_drop_nulls :
    ∀ (es : List Value) (first : Bool),
      write_toml_inline_arr first es = write_toml_inline_arr first (filter_nulls_arr es) := by
  intro es
  induction es with
  | nil => intro first; rfl
  | cons e rest ih =>
      intro first
      cases hv : is_null e with
      | true =>
          have hfil : filter_nulls_arr (e :: rest) = filter_nulls_arr rest := by
            simp [filter_nulls_arr, List.filter_cons, hv]
          rw [hfil, write_toml_inline_arr, if_pos hv, ih]
      | false =>
          have hfil : filter_nulls_arr (e :: rest) = e :: filter_nulls_arr rest := by
            simp [filter_nulls_arr, List.filter_cons, hv]
          have hne : ¬(is_null e = true) := by simp [hv]
          rw [hfil, write_toml_inline_arr, if_neg hne]
          conv_rhs => rw [write_toml_inline_arr, if_neg hne]
          rw [ih]

/-- The inline table loop ignores null members. -/
theorem inline_obj_drop_nulls :
    ∀ (l : List (String × Value)) (first : Bool),
      write_toml_inline_obj first l = write_toml_inline_obj first (filter_nulls l) := by
  intro l
  induction l with
  | nil => intro first; rfl
  | cons head rest ih =>
      intro first
      obtain ⟨k, v⟩ := head
      cases hv : is_null v with
      | true =>
          have hfil : filter_nulls ((k, v) :: rest) = filter_nulls rest := by
            simp [filter_nulls, List.filter_cons, hv]
          rw [hfil, write_toml_inline_obj, if_pos hv, ih]
      | false =>
          have hfil : filter_nulls ((k, v) :: rest) = (k, v) :: filter_nulls rest := by
            simp [filter_nulls, List.filter_cons, hv]
          have hne : ¬(is_null v = true) := by simp [hv]
          rw [hfil, write_toml_inline_obj, if_neg hne]
          conv_rhs => rw [write_toml_inline_obj, if_neg hne]
          rw [ih]

/-- C6: null-valued members are dropped entirely.  Rendering a non-inline
mapping, an inline array, or an inline table is unchanged when its
null-valued members are removed first (so they are not rendered at all
and leave no separator artifact), and `{"a": null, "b": 1}` renders as
exactly `b = 1`. -/
theorem claim_C6 :
    (∀ (ctx : String) (ms : List (String × Value)),
      write_toml ctx (Value.obj ms) = write_toml ctx (Value.obj (filter_nulls ms)))
    ∧ (∀ es : List Value,
      write_toml_inline (Value.arr es) = write_toml_inline (Value.arr (filter_nulls_arr es)))
    ∧ (∀ ms : List (String × Value),
      write_toml_inline (Value.obj ms) = write_toml_inline (Value.obj (filter_nulls ms)))
    ∧ write_toml "" (Value.obj [("a", Value.null), ("b", Value.num "1")]) =
        .ok [(Role.key, "b"), (Role.plain, " = "), (Role.plain, "1")]
    ∧ render [(Role.key, "b"), (Role.plain, " = "), (Role.plain, "1")] = "b = 1" := by
  refine ⟨?_, ?_, ?_, rfl, rfl⟩
  · intro ctx ms
    have h3 : (filter_nulls ms).any (fun kv => !is_null kv.2 && !should_nest kv.2)
        = ms.any (fun kv => !is_null kv.2 && !should_nest kv.2) := by
      rw [any_drop_nulls]
      exact any_congr_fun ms _ _ (fun kv => by
        cases hv : is_null kv.2 <;> simp [hv])
    show eseq (write_toml_flat ctx true ms)
        (write_toml_nested ctx (ms.any (fun kv => !is_null kv.2 && !should_nest kv.2)) ms)
      = eseq (write_toml_flat ctx true (filter_nulls ms))
        (write_toml_nested ctx
          ((filter_nulls ms).any (fun kv => !is_null kv.2 && !should_nest kv.2))
          (filter_nulls ms))
    rw [h3, ← flat_drop_nulls, ← nested_drop_nulls]
  · intro es
    show (write_toml_inline_arr true es).map _
      = (write_toml_inline_arr true (filter_nulls_arr es)).map _
    rw [← inline_arr_drop_nulls]
  · intro ms
    have h4 : (filter_nulls ms).any (fun kv => !is_null kv.2)
        = ms.any (fun kv => !is_null kv.2) := by
      rw [any_drop_nulls]
      exact any_congr_fun ms _ _ (fun kv => by cases hv : is_null kv.2 <;> simp [hv])
    show (write_toml_inline_obj true ms).map
        (fun cs => (Role.plain, "\x7b") ::
          (cs ++
            if ms.any (fun kv => !is_null kv.2)
            then [(Role.plain, " "), (Role.plain, "\x7d")]
            else [(Role.plain, "\x7d")]))
      = (write_toml_inline_obj true (filter_nulls ms)).map
        (fun cs => (Role.plain, "\x7b") ::
          (cs ++
            if (filter_nulls ms).any (fun kv => !is_null kv.2)
            then [(Role.plain, " "), (Role.plain, "\x7d")]
            else [(Role.plain, "\x7d")]))
    rw [h4, ← inline_obj_drop_nulls]

/-- C10: an empty-array member of a non-inline mapping is classified as
nested (it is an array of objects, vacuously), so it produces no `key =
[]` line and no `[[key]]` header — rendering a mapping whose only member
is an empty array emits nothing at all — while the blank-line separator
before nested members is still written when flat members precede, as in
`{"a": 1, "k": []}`, which renders as `a = 1` followed by the blank-line
separator and nothing for `k`. -/
theorem claim_C10 (ctx k : String) :
    should_nest (Value.arr []) = true
    ∧ is_object_array (Value.arr []) = true
    ∧ write_toml ctx (Value.obj [(k, Value.arr [])]) = .ok []
    ∧ write_toml "" (Value.obj [("a", Value.num "1"), ("k", Value.arr [])]) =
        .ok [(Role.key, "a"), (Role.plain, " = "), (Role.plain, "1"), (Role.plain, "\n\n")]
    ∧ render [(Role.key, "a"), (Role.plain, " = "), (Role.plain, "1"), (Role.plain, "\n\n")] =
        "a = 1\n\n" :=
  ⟨rfl, rfl, rfl, rfl, rfl⟩

/-- Sequencing preserves header-freeness. -/
theorem no_header_eseq (a b : TomlOut) (ha : no_header a = true) (hb : no_header b = true) :
    no_header (eseq a b) = true := by
  cases a with
  | error e => rfl
  | ok x =>
      cases b with
      | error e => rfl
      | ok y =>
          simp only [no_header] at ha hb
          simp [eseq, no_header, List.all_append, ha, hb]

/-- Wrapping the chunks with a header-free transformation preserves
header-freeness. -/
theorem no_header_map (f : List Chunk → List Chunk)
    (hf : ∀ cs, cs.all (fun c => !(c.1 == Role.header)) = true →
      (f cs).all (fun c => !(c.1 == Role.header)) = true)
    (x : TomlOut) (hx : no_header x = true) : no_header (x.map f) = true := by
  cases x with
  | error e => rfl
  | ok cs =>
      simp only [no_header] at hx
      simpa [Except.map, no_header] using hf cs hx

/-- The inline renderer never writes a `HEADER`-role chunk: headers only
come from the non-inline object passes. -/
theorem inline_no_header_all : ∀ n : Nat,
    (∀ v : Value, sizeOf v ≤ n → no_header (write_toml_inline v) = true)
    ∧ (∀ es : List Value, sizeOf es ≤ n → ∀ first : Bool,
      no_header (write_toml_inline_arr first es) = true)
    ∧ (∀ l : List (String × Value), sizeOf l ≤ n → ∀ first : Bool,
      no_header (write_toml_inline_obj first l) = true) := by
  intro n
  induction n using Nat.strong_induction_on with
  | _ n ih =>
    refine ⟨?_, ?_, ?_⟩
    · intro v hv
      cases v with
      | null => rfl
      | bool b => rfl
      | num m => rfl
      | str s => rfl
      | arr es =>
          have hsz : sizeOf (Value.arr es) = 1 + sizeOf es := Value.arr.sizeOf_spec es
          have hlt : sizeOf es < n := by omega
          refine no_header_map _ ?_ _ ((ih (sizeOf es) hlt).2.1 es (le_refl _) true)
          intro cs hcs
          simp [List.all_cons, List.all_append, hcs]
      | obj ms =>
          have hsz : sizeOf (Value.obj ms) = 1 + sizeOf ms := Value.obj.sizeOf_spec ms
          have hlt : sizeOf ms < n := by omega
          refine no_header_map _ ?_ _ ((ih (sizeOf ms) hlt).2.2 ms (le_refl _) true)
          intro cs hcs
          cases hany : ms.any (fun kv => !is_null kv.2) <;>
            simp [hany, List.all_cons, List.all_append, hcs]
    · intro es hes first
      cases es with
      | nil => rfl
      | cons e rest =>
          have hsz : sizeOf (e :: rest) = 1 + sizeOf e + sizeOf rest := List.cons.sizeOf_spec e rest
          have hlte : sizeOf e < n := by omega
          have hltr : sizeOf rest < n := by omega
          cases hk : is_null e with
          | true =>
              rw [write_toml_inline_arr, if_pos hk]
              exact (ih (sizeOf rest) hltr).2.1 rest (le_refl _) first
          | false =>
              rw [write_toml_inline_arr, if_neg (by simp [hk])]
              refine no_header_eseq _ _ ?_ ((ih (sizeOf rest) hltr).2.1 rest (le_refl _) false)
              refine no_header_map _ ?_ _ ((ih (sizeOf e) hlte).1 e (le_refl _))
              intro cs hcs
              cases first <;> simp [List.all_cons, List.all_append, hcs]
    · intro l hl first
      cases l with
      | nil => rfl
      | cons head rest =>
          obtain ⟨k, v⟩ := head
          have hsz : sizeOf ((k, v) :: rest) = 1 + (1 + sizeOf k + sizeOf v) + sizeOf rest := by
            rw [List.cons.sizeOf_spec, Prod.mk.sizeOf_spec]
          have hltv : sizeOf v < n := by omega
          have hltr : sizeOf rest < n := by omega
          cases hk : is_null v with
          | true =>
              rw [write_toml_inline_obj, if_pos hk]
              exact (ih (sizeOf rest) hltr).2.2 rest (le_refl _) first
          | false =>
              rw [write_toml_inline_obj, if_neg (by simp [hk])]
              refine no_header_eseq _ _ ?_ ((ih (sizeOf rest) hltr).2.2 rest (le_refl _) false)
              refine no_header_map _ ?_ _ ((ih (sizeOf v) hltv).1 v (le_refl _))
              intro cs hcs
              cases first <;> simp [List.all_cons, List.all_append, hcs]

/-- A success can be destructured. -/
theorem isOk_exists (x : TomlOut) (h : x.isOk = true) : ∃ cs, x = .ok cs := by
  cases x with
  | ok cs => exact ⟨cs, rfl⟩
  | error e => simp [Except.isOk, Except.toBool] at h

/-- C4: a mapping member whose value is an array is emitted as
`[[section]]` array-of-tables entries iff every element of the array is
an object: when they all are, rendering the single-member mapping is
exactly the array-of-tables loop (whose output starts with the
`[[key]]` header when the array is non-empty); when even one element is
not an object the whole member renders as `key = ` followed by the
inline rendering of the array, which succeeds and contains no
`HEADER`-role chunk at all; `[1, {"a": 1}]` renders inline as
`[1, { a = 1 }]`. -/
theorem claim_C4 (k : String) (es : List Value) :
    (if es.all is_object = true then
        write_toml "" (Value.obj [(k, Value.arr es)]) =
          write_toml_tables ("" ++ toml_key k) false es
        ∧ (if es.isEmpty = false then
            ((write_toml "" (Value.obj [(k, Value.arr es)])).toOption.getD []).head? =
              some (Role.header, "[[" ++ ("" ++ toml_key k) ++ "]]")
          else True)
      else
        write_toml "" (Value.obj [(k, Value.arr es)]) =
          (write_toml_inline (Value.arr es)).map
            (fun cs => (Role.key, toml_key k) :: (Role.plain, " = ") :: cs)
        ∧ (write_toml_inline (Value.arr es)).isOk = true
        ∧ no_header (write_toml_inline (Value.arr es)) = true)
    ∧ write_toml_inline (Value.arr [Value.num "1", Value.obj [("a", Value.num "1")]]) =
        .ok [(Role.plain, "["), (Role.plain, "1"), (Role.plain, ", "), (Role.plain, "\x7b"),
          (Role.key, " a"), (Role.plain, " = "), (Role.plain, "1"), (Role.plain, " "),
          (Role.plain, "\x7d"), (Role.plain, "]")]
    ∧ render [(Role.plain, "["), (Role.plain, "1"), (Role.plain, ", "), (Role.plain, "\x7b"),
          (Role.key, " a"), (Role.plain, " = "), (Role.plain, "1"), (Role.plain, " "),
          (Role.plain, "\x7d"), (Role.plain, "]")] = "[1, \x7b a = 1 \x7d]" := by
  refine ⟨?_, rfl, rfl⟩
  cases hall : es.all is_object with
  | true =>
      rw [if_pos (rfl : (true : Bool) = true)]
      have heq : write_toml "" (Value.obj [(k, Value.arr es)]) =
          write_toml_tables ("" ++ toml_key k) false es := by
        have hflat : write_toml_flat "" true [(k, Value.arr es)] = .ok [] := by
          rw [write_toml_flat,
            if_pos (show (is_null (Value.arr es) || should_nest (Value.arr es)) = true by
              simp [is_null, should_nest, is_object, is_object_array, hall])]
          rfl
        have hany : [(k, Value.arr es)].any
            (fun kv => !is_null kv.2 && !should_nest kv.2) = false := by
          simp [List.any_cons, is_null, should_nest, is_object, is_object_array, hall]
        have hnested : write_toml_nested "" false [(k, Value.arr es)] =
            eseq ((write_toml_tables ("" ++ toml_key k) false es).map
              (fun cs => [] ++ cs)) (.ok []) := by
          rw [write_toml_nested,
            if_neg (show ¬((is_null (Value.arr es) || !should_nest (Value.arr es)) = true) by
              simp [is_null, should_nest, is_object, is_object_array, hall])]
          rfl
        calc write_toml "" (Value.obj [(k, Value.arr es)])
            = eseq (write_toml_flat "" true [(k, Value.arr es)])
              (write_toml_nested ""
                ([(k, Value.arr es)].any (fun kv => !is_null kv.2 && !should_nest kv.2))
                [(k, Value.arr es)]) := rfl
          _ = eseq (.ok []) (write_toml_nested "" false [(k, Value.arr es)]) := by
              rw [hflat, hany]
          _ = write_toml_tables ("" ++ toml_key k) false es := by
              rw [hnested, eseq_nil_left, eseq_nil_right, map_nil_prepend]
      refine ⟨heq, ?_⟩
      cases es with
      | nil => simp
      | cons e rest =>
          rw [if_pos (show List.isEmpty (e :: rest) = false from rfl)]
          simp only [List.all_cons, Bool.and_eq_true] at hall
          obtain ⟨he, hrest⟩ := hall
          cases e with
          | null => simp [is_object] at he
          | bool b => simp [is_object] at he
          | num m => simp [is_object] at he
          | str s => simp [is_object] at he
          | arr es2 => simp [is_object] at he
          | obj o =>
              obtain ⟨cs1, hcs1⟩ := isOk_exists _
                ((toml_total (sizeOf (Value.obj o))).1 (Value.obj o) (le_refl _)
                  (("" ++ toml_key k) ++ ".") rfl)
              obtain ⟨cs2, hcs2⟩ := isOk_exists _
                ((toml_total (sizeOf rest)).2.2.2.2.1 rest (le_refl _)
                  ("" ++ toml_key k) true hrest)
              rw [heq, write_toml_tables, hcs1, hcs2]
              simp [eseq, Except.map, Except.toOption]
  | false =>
      rw [if_neg (by decide : ¬((false : Bool) = true))]
      have hflat2 : write_toml_flat "" true [(k, Value.arr es)] =
          eseq ((write_toml "" (Value.arr es)).map
            (fun cs => [] ++ ((Role.key, toml_key k) :: (Role.plain, " = ") :: cs))) (.ok []) := by
        rw [write_toml_flat,
          if_neg (show ¬((is_null (Value.arr es) || should_nest (Value.arr es)) = true) by
            simp [is_null, should_nest, is_object, is_object_array, hall])]
        rfl
      have hany2 : [(k, Value.arr es)].any
          (fun kv => !is_null kv.2 && !should_nest kv.2) = true := by
        simp [List.any_cons, is_null, should_nest, is_object, is_object_array, hall]
      have hnested2 : write_toml_nested "" true [(k, Value.arr es)] = .ok [] := by
        rw [write_toml_nested,
          if_pos (show (is_null (Value.arr es) || !should_nest (Value.arr es)) = true by
            simp [is_null, should_nest, is_object, is_object_array, hall])]
        rfl
      refine ⟨?_, (toml_total (sizeOf (Value.arr es))).2.1 _ (le_refl _) rfl,
        (inline_no_header_all (sizeOf (Value.arr es))).1 _ (le_refl _)⟩
      calc write_toml "" (Value.obj [(k, Value.arr es)])
          = eseq (write_toml_flat "" true [(k, Value.arr es)])
            (write_toml_nested ""
              ([(k, Value.arr es)].any (fun kv => !is_null kv.2 && !should_nest kv.2))
              [(k, Value.arr es)]) := rfl
        _ = eseq (eseq ((write_toml "" (Value.arr es)).map
              (fun cs => [] ++ ((Role.key, toml_key k) :: (Role.plain, " = ") :: cs)))
              (.ok [])) (.ok []) := by
            rw [hflat2, hany2, hnested2]
        _ = (write_toml "" (Value.arr es)).map
              (fun cs => [] ++ ((Role.key, toml_key k) :: (Role.plain, " = ") :: cs)) := by
            rw [eseq_nil_right, eseq_nil_right]
        _ = (write_toml_inline (Value.arr es)).map
              (fun cs => [] ++ ((Role.key, toml_key k) :: (Role.plain, " = ") :: cs)) := by
            rw [show write_toml "" (Value.arr es) = write_toml_inline (Value.arr es) from rfl]
        _ = (write_toml_inline (Value.arr es)).map
              (fun cs => (Role.key, toml_key k) :: (Role.plain, " = ") :: cs) := by
            cases hx : write_toml_inline (Value.arr es) <;> simp [Except.map]

end Jfn
